import Mathlib

/-!
Verification of the lead-management core in `src/app.js`: validators,
query filtering, JSON persistence (a model of `JSON.stringify` /
`JSON.parse` over `localStorage`), and the CRUD event handlers.

Strings are modelled by Lean `String` (a list of Unicode scalar values);
`toLowerCase` is modelled by the ASCII simple case mapping, and the
JavaScript whitespace class (used by `trim` and the regex class `\s`)
is modelled by its explicit character list.
-/

namespace LeadApp

/-- The JavaScript whitespace set: `String.prototype.trim` strips these and
the regex class `\s` matches exactly these characters. -/
def jsIsWs (c : Char) : Bool :=
  c = ' ' || c = '\t' || c = '\n' || c = '\r' || c = '\x0b' || c = '\x0c' ||
  c = '\u00a0' || c = '\u1680' ||
  ('\u2000' ≤ c && c ≤ '\u200a') ||
  c = '\u2028' || c = '\u2029' || c = '\u202f' || c = '\u205f' ||
  c = '\u3000' || c = '\ufeff'

/-- Model of `String.prototype.trim`: strip JS whitespace from both ends. -/
def jsTrim (s : String) : String :=
  ⟨((s.data.dropWhile jsIsWs).reverse.dropWhile jsIsWs).reverse⟩

/-- Model of `String.prototype.toLowerCase` (simple case mapping on the
ASCII range, applied character by character). -/
def jsToLower (s : String) : String :=
  ⟨s.data.map Char.toLower⟩

/-- Predicate `hasPre pre l` holds when `pre` is an initial segment of `l`. -/
def hasPre : List Char → List Char → Bool
  | [], _ => true
  | _ :: _, [] => false
  | a :: as, b :: bs => a = b && hasPre as bs

/-- Predicate `containsSub l sub`: `sub` occurs contiguously inside `l`. -/
def containsSub : List Char → List Char → Bool
  | [], sub => sub.isEmpty
  | c :: rest, sub => hasPre sub (c :: rest) || containsSub rest sub

/-- Model of `String.prototype.includes`. -/
def jsIncludes (s sub : String) : Bool :=
  containsSub s.data sub.data

/-- Result record of the field validators: `{ valid, message }`. -/
structure ValidationResult where
  valid : Bool
  message : String
deriving DecidableEq, Repr

/-- Validator `validateName` from `app.js`: trims, requires non-empty, max length 100. -/
def validateName (value : String) : ValidationResult :=
  if jsTrim value = "" then ⟨false, "Name is required."⟩
  else if (jsTrim value).length > 100 then ⟨false, "Name must be 100 characters or less."⟩
  else ⟨true, ""⟩

/-- The character class `[\d\s\-\(\)\+\.]` of the phone regex in `app.js`. -/
def isPhoneChar (c : Char) : Bool :=
  c.isDigit || jsIsWs c || c = '-' || c = '(' || c = ')' || c = '+' || c = '.'

/-- Model of `/^[\d\s\-\(\)\+\.]{7,20}$/.test s`: every character is in the
class and the total length is between 7 and 20. -/
def phoneRegexTest (s : String) : Bool :=
  s.data.all isPhoneChar && decide (7 ≤ s.length) && decide (s.length ≤ 20)

/-- Validator `validatePhone` from `app.js`: trims, requires non-empty, then the regex. -/
def validatePhone (value : String) : ValidationResult :=
  if jsTrim value = "" then ⟨false, "Phone number is required."⟩
  else if phoneRegexTest (jsTrim value) then ⟨true, ""⟩
  else ⟨false, "Enter a valid phone number (7–20 digits/symbols)."⟩

/-- Validator `validateSource` from `app.js`: any value that is non-empty after trim. -/
def validateSource (value : String) : ValidationResult :=
  if value = "" || jsTrim value = "" then ⟨false, "Please select a source."⟩
  else ⟨true, ""⟩

/-- Validator `validateStatus` from `app.js`: any value that is non-empty after trim. -/
def validateStatus (value : String) : ValidationResult :=
  if value = "" || jsTrim value = "" then ⟨false, "Please select a status."⟩
  else ⟨true, ""⟩

/-- The lead record: the only entity of the data model. -/
structure Lead where
  id : String
  name : String
  phone : String
  source : String
  status : String
deriving DecidableEq, Repr

/-- The filter pair read from the search box and the status dropdown. -/
structure Filters where
  search : String
  status : String
deriving DecidableEq, Repr

/-- The predicate of `filterLeads` in `app.js`: the body of the
`leads.filter(...)` callback (JS truthiness of a string is non-emptiness). -/
def leadMatches (filters : Filters) (lead : Lead) : Bool :=
  let matchesSearch :=
    filters.search = "" ||
    (!(lead.name = "") && jsIncludes (jsToLower lead.name) filters.search) ||
    (!(lead.phone = "") && jsIncludes (jsToLower lead.phone) filters.search)
  let matchesStatus := filters.status = "" || lead.status = filters.status
  matchesSearch && matchesStatus

/-- Function `filterLeads` from `app.js`. -/
def filterLeads (leads : List Lead) (filters : Filters) : List Lead :=
  leads.filter (leadMatches filters)

/-- Case-insensitive substring containment, as the specification words it. -/
def containsCI (hay needle : String) : Bool :=
  jsIncludes (jsToLower hay) (jsToLower needle)

/-- The inclusion predicate exactly as the specification words it: empty
search matches everything, else name or phone contains the term
case-insensitively; empty status matches everything, else exact equality. -/
def specMatches (filters : Filters) (lead : Lead) : Bool :=
  (filters.search = "" || containsCI lead.name filters.search ||
    containsCI lead.phone filters.search) &&
  (filters.status = "" || lead.status = filters.status)

/-- Per-field error messages written by `validateForm` via `setFieldError`. -/
structure FormErrors where
  name : String
  phone : String
  source : String
  status : String
deriving DecidableEq, Repr

/-- The raw values of the four form inputs plus the hidden id input. -/
structure FormFields where
  id : String
  name : String
  phone : String
  source : String
  status : String
deriving DecidableEq, Repr

/-- Function `validateForm` from `app.js`: runs the four validators, records each
message, and returns the conjunction of the four `valid` flags. -/
def runValidateForm (f : FormFields) : FormErrors × Bool :=
  let nameResult := validateName f.name
  let phoneResult := validatePhone f.phone
  let sourceResult := validateSource f.source
  let statusResult := validateStatus f.status
  (⟨nameResult.message, phoneResult.message, sourceResult.message, statusResult.message⟩,
   nameResult.valid && phoneResult.valid && sourceResult.valid && statusResult.valid)

/-- JSON values, as produced by `JSON.parse`. Numbers keep their source
text: nothing in the application computes with numeric leads. -/
inductive JValue where
  | null : JValue
  | bool (b : Bool) : JValue
  | num (raw : String) : JValue
  | str (s : String) : JValue
  | arr (elems : List JValue) : JValue
  | obj (fields : List (String × JValue)) : JValue

/-- Lower-case hexadecimal digit for a value below 16. -/
def hexDig (n : Nat) : Char :=
  if n < 10 then Char.ofNat (48 + n) else Char.ofNat (87 + n)

/-- Value of one hexadecimal digit (either case), as in a `\uXXXX` escape. -/
def hexVal (c : Char) : Option Nat :=
  if '0' ≤ c && c ≤ '9' then some (c.toNat - 48)
  else if 'a' ≤ c && c ≤ 'f' then some (c.toNat - 87)
  else if 'A' ≤ c && c ≤ 'F' then some (c.toNat - 55)
  else none

/-- The `JSON.stringify` escaping of one string character: quote and backslash
are escaped, control characters get their short escapes or `\u00XX`, and
everything else is emitted literally. -/
def escChar (c : Char) : List Char :=
  if c = '"' then ['\\', '"']
  else if c = '\\' then ['\\', '\\']
  else if c = '\x08' then ['\\', 'b']
  else if c = '\x09' then ['\\', 't']
  else if c = '\x0a' then ['\\', 'n']
  else if c = '\x0c' then ['\\', 'f']
  else if c = '\x0d' then ['\\', 'r']
  else if c.toNat < 32 then ['\\', 'u', '0', '0', hexDig (c.toNat / 16), hexDig (c.toNat % 16)]
  else [c]

/-- The `JSON.stringify` escaping of a whole string body. -/
def escList (cs : List Char) : List Char :=
  (cs.map escChar).flatten

/-- A JSON string literal: body escaped and wrapped in quotes. -/
def quoteL (cs : List Char) : List Char :=
  ['"'] ++ escList cs ++ ['"']

/-- The `JSON.stringify` text of one lead object (keys in declaration order). -/
def stringifyLeadL (l : Lead) : List Char :=
  ['\x7b'] ++ quoteL "id".data ++ [':'] ++ quoteL l.id.data ++ [','] ++
  quoteL "name".data ++ [':'] ++ quoteL l.name.data ++ [','] ++
  quoteL "phone".data ++ [':'] ++ quoteL l.phone.data ++ [','] ++
  quoteL "source".data ++ [':'] ++ quoteL l.source.data ++ [','] ++
  quoteL "status".data ++ [':'] ++ quoteL l.status.data ++ ['\x7d']

/-- The comma-separated element list of `JSON.stringify` of a lead array. -/
def stringifyLeadsInner : List Lead → List Char
  | [] => []
  | [l] => stringifyLeadL l
  | l :: rest => stringifyLeadL l ++ [','] ++ stringifyLeadsInner rest

/-- The `JSON.stringify` text of a lead array, as a character list. -/
def stringifyLeadsL (leads : List Lead) : List Char :=
  ['['] ++ stringifyLeadsInner leads ++ [']']

/-- The serialized text `JSON.stringify(leads)`, the text written to the storage slot. -/
def stringifyLeads (leads : List Lead) : String :=
  ⟨stringifyLeadsL leads⟩

/-- JSON inter-token whitespace (only these four, per the JSON grammar). -/
def jsonWs (c : Char) : Bool :=
  c = ' ' || c = '\t' || c = '\n' || c = '\r'

/-- Drop leading JSON whitespace. -/
def skipWs : List Char → List Char
  | [] => []
  | c :: cs => if jsonWs c then skipWs cs else c :: cs

/-- Read a JSON string body after the opening quote, returning the decoded
characters and the remaining input. Unescaped control characters are
rejected; `\uXXXX` escapes outside the scalar range are rejected (such
lone surrogates have no counterpart in a Lean string). -/
def readStr : List Char → Option (List Char × List Char)
  | [] => none
  | c :: rest =>
    if c = '"' then some ([], rest)
    else if c = '\\' then
      match rest with
      | [] => none
      | e :: rest2 =>
        if e = '"' then (readStr rest2).map (fun p => ('"' :: p.1, p.2))
        else if e = '\\' then (readStr rest2).map (fun p => ('\\' :: p.1, p.2))
        else if e = '/' then (readStr rest2).map (fun p => ('/' :: p.1, p.2))
        else if e = 'b' then (readStr rest2).map (fun p => ('\x08' :: p.1, p.2))
        else if e = 'f' then (readStr rest2).map (fun p => ('\x0c' :: p.1, p.2))
        else if e = 'n' then (readStr rest2).map (fun p => ('\x0a' :: p.1, p.2))
        else if e = 'r' then (readStr rest2).map (fun p => ('\x0d' :: p.1, p.2))
        else if e = 't' then (readStr rest2).map (fun p => ('\x09' :: p.1, p.2))
        else if e = 'u' then
          match rest2 with
          | a :: b :: c2 :: d :: rest3 =>
            match hexVal a, hexVal b, hexVal c2, hexVal d with
            | some w, some x, some y, some z =>
              if Nat.isValidChar (4096 * w + 256 * x + 16 * y + z) then
                (readStr rest3).map
                  (fun p => (Char.ofNat (4096 * w + 256 * x + 16 * y + z) :: p.1, p.2))
              else none
            | _, _, _, _ => none
          | _ => none
        else none
    else if c.toNat < 32 then none
    else (readStr rest).map (fun p => (c :: p.1, p.2))

/-- Characters that can occur in a JSON number lexeme. -/
def numChar (c : Char) : Bool :=
  c.isDigit || c = '-' || c = '+' || c = '.' || c = 'e' || c = 'E'

/-- Integer part of a JSON number: `0`, or a nonzero digit then digits. -/
def chkInt : List Char → Option (List Char)
  | [] => none
  | '0' :: r => some r
  | c :: r => if c.isDigit then some (r.dropWhile Char.isDigit) else none

/-- Optional fraction part: `.` then at least one digit. -/
def chkFrac : List Char → Option (List Char)
  | '.' :: r =>
    match r with
    | c :: _ => if c.isDigit then some (r.dropWhile Char.isDigit) else none
    | [] => none
  | cs => some cs

/-- Optional exponent part, which must end the lexeme. -/
def chkExp : List Char → Bool
  | [] => true
  | e :: r =>
    if e = 'e' || e = 'E' then
      match r with
      | '+' :: t => !t.isEmpty && t.all Char.isDigit
      | '-' :: t => !t.isEmpty && t.all Char.isDigit
      | t => !t.isEmpty && t.all Char.isDigit
    else false

/-- Full JSON number grammar over a lexeme. -/
def isJsonNum (cs : List Char) : Bool :=
  let cs1 := match cs with
    | '-' :: r => r
    | _ => cs
  match chkInt cs1 with
  | none => false
  | some r1 =>
    match chkFrac r1 with
    | none => false
    | some r2 => chkExp r2

/-- Read a JSON number: the maximal run of number characters, validated
against the JSON number grammar, kept as raw text. -/
def readNum (cs : List Char) : Option (JValue × List Char) :=
  let lexeme := cs.takeWhile numChar
  if !lexeme.isEmpty && isJsonNum lexeme then
    some (JValue.num ⟨lexeme⟩, cs.dropWhile numChar)
  else none

/-- Mode of the recursive-descent JSON reader: a value, an array tail
(empty or not-yet-read first element), or an object tail. -/
inductive PMode where
  | val
  | elems
  | elemsNE
  | members
  | membersNE

/-- Fuel-indexed recursive-descent JSON reader (the fuel only bounds the
recursion depth; `parseJson` supplies enough for its input). In modes
`elems`/`elemsNE` the result is wrapped as `JValue.arr`, in modes
`members`/`membersNE` as `JValue.obj`. -/
def parseRun : Nat → PMode → List Char → Option (JValue × List Char)
  | 0, _, _ => none
  | Nat.succ f, PMode.val, cs =>
    match skipWs cs with
    | [] => none
    | c :: rest =>
      if c = '"' then (readStr rest).map (fun p => (JValue.str ⟨p.1⟩, p.2))
      else if c = '\x7b' then parseRun f PMode.members (skipWs rest)
      else if c = '[' then parseRun f PMode.elems (skipWs rest)
      else if c = 't' then
        match rest with
        | 'r' :: 'u' :: 'e' :: r => some (JValue.bool true, r)
        | _ => none
      else if c = 'f' then
        match rest with
        | 'a' :: 'l' :: 's' :: 'e' :: r => some (JValue.bool false, r)
        | _ => none
      else if c = 'n' then
        match rest with
        | 'u' :: 'l' :: 'l' :: r => some (JValue.null, r)
        | _ => none
      else readNum (c :: rest)
  | Nat.succ f, PMode.elems, cs =>
    match cs with
    | ']' :: rest => some (JValue.arr [], rest)
    | _ => parseRun f PMode.elemsNE cs
  | Nat.succ f, PMode.elemsNE, cs =>
    match parseRun f PMode.val cs with
    | none => none
    | some (v, cs1) =>
      match skipWs cs1 with
      | ']' :: rest => some (JValue.arr [v], rest)
      | ',' :: rest =>
        match parseRun f PMode.elemsNE rest with
        | some (JValue.arr vs, cs2) => some (JValue.arr (v :: vs), cs2)
        | _ => none
      | _ => none
  | Nat.succ f, PMode.members, cs =>
    match cs with
    | '\x7d' :: rest => some (JValue.obj [], rest)
    | _ => parseRun f PMode.membersNE cs
  | Nat.succ f, PMode.membersNE, cs =>
    match cs with
    | '"' :: rest =>
      match readStr rest with
      | none => none
      | some (k, cs1) =>
        match skipWs cs1 with
        | ':' :: cs2 =>
          match parseRun f PMode.val cs2 with
          | none => none
          | some (v, cs3) =>
            match skipWs cs3 with
            | '\x7d' :: rest2 => some (JValue.obj [(⟨k⟩, v)], rest2)
            | ',' :: rest2 =>
              match parseRun f PMode.membersNE (skipWs rest2) with
              | some (JValue.obj ms, cs4) => some (JValue.obj ((⟨k⟩, v) :: ms), cs4)
              | _ => none
            | _ => none
        | _ => none
    | _ => none

/-- Model of `JSON.parse`: read one value, allow trailing whitespace,
reject anything else. The fuel `4 * length + 8` strictly dominates the
reader's recursion depth on any input. -/
def parseJson (s : String) : Option JValue :=
  match parseRun (4 * s.length + 8) PMode.val s.data with
  | some (v, rest) => if (skipWs rest).isEmpty then some v else none
  | none => none

/-- The fixed `localStorage` key of the application. -/
def STORAGE_KEY : String := "leadManagementLeads"

/-- Function `getLeads` from `app.js`. The slot is the current content of
`localStorage` under `STORAGE_KEY` (`none` when absent). A missing or
empty slot is falsy, so the code returns `[]`; a parse failure is caught
and also yields `[]`; otherwise the parsed value is returned as-is. -/
def getLeads (slot : Option String) : JValue :=
  match slot with
  | none => JValue.arr []
  | some data =>
    if data = "" then JValue.arr []
    else
      match parseJson data with
      | some v => v
      | none => JValue.arr []

/-- Function `saveLeads` from `app.js`: serialize and write the full collection;
a write failure (e.g. quota) is caught and leaves the slot unchanged. -/
def saveLeads (writeFails : Bool) (slot : Option String) (leads : List Lead) : Option String :=
  if writeFails then slot else some (stringifyLeads leads)

/-- Function `generateId` from `app.js`, with the timestamp and the random suffix
supplied as inputs (they are environment effects). -/
def generateId (now : Nat) (rand : String) : String :=
  "lead_" ++ toString now ++ "_" ++ rand

/-- The JSON object encoding of one lead, `JSON.parse`-side view. -/
def leadJ (l : Lead) : JValue :=
  JValue.obj [("id", JValue.str l.id), ("name", JValue.str l.name),
    ("phone", JValue.str l.phone), ("source", JValue.str l.source),
    ("status", JValue.str l.status)]

/-- Property lookup on a parsed JSON object: with duplicate keys the last
occurrence wins, as in a JavaScript object built by `JSON.parse`. -/
def jlookupLast (fields : List (String × JValue)) (k : String) : Option JValue :=
  (fields.reverse.find? (fun p => p.1 == k)).map (fun p => p.2)

/-- Read one lead record off a parsed JSON object: all five fields must be
present as strings. -/
def decodeLead : JValue → Option Lead
  | JValue.obj fs =>
    match jlookupLast fs "id", jlookupLast fs "name", jlookupLast fs "phone",
        jlookupLast fs "source", jlookupLast fs "status" with
    | some (JValue.str i), some (JValue.str n), some (JValue.str p),
        some (JValue.str so), some (JValue.str stt) => some ⟨i, n, p, so, stt⟩
    | _, _, _, _, _ => none
  | _ => none

/-- Read a lead collection off a parsed JSON array, element by element. -/
def decodeLeadList : List JValue → Option (List Lead)
  | [] => some []
  | v :: rest =>
    match decodeLead v, decodeLeadList rest with
    | some l, some ls => some (l :: ls)
    | _, _ => none

/-- Read a lead collection off a parsed JSON value. -/
def decodeLeads : JValue → Option (List Lead)
  | JValue.arr vs => decodeLeadList vs
  | _ => none

/-- The whole user-visible state touched by the handlers: the persisted
collection (kept here in decoded form, justified by the store round-trip
theorem), the form inputs, the form-mode chrome, the validation messages,
and the delete-confirmation modal. -/
structure AppState where
  stored : List Lead
  form : FormFields
  formTitle : String
  submitLabel : String
  cancelVisible : Bool
  errors : FormErrors
  deleteTargetId : Option String
  modalVisible : Bool
  modalMessage : String
deriving DecidableEq, Repr

/-- Function `resetForm` from `app.js`: clear all inputs and validation state and
return the form chrome to add mode. -/
def resetFormState (st : AppState) : AppState :=
  { st with
    form := ⟨"", "", "", "", ""⟩
    formTitle := "Add New Lead"
    submitLabel := "Add Lead"
    cancelVisible := false
    errors := ⟨"", "", "", ""⟩ }

/-- Model of `Array.prototype.findIndex`: index of the first match. -/
def jsFindIndex (p : Lead → Bool) : List Lead → Option Nat
  | [] => none
  | l :: ls => if p l then some 0 else (jsFindIndex p ls).map (fun i => i + 1)

/-- Handler `handleFormSubmit` from `app.js`: validate (always writing the field
messages), then update the record whose id equals the trimmed hidden id
(first match only; silently skip the save when absent), or append a new
record under the freshly generated id when the hidden id is empty. -/
def handleFormSubmit (st : AppState) (freshId : String) : AppState :=
  let r := runValidateForm st.form
  let st1 := { st with errors := r.1 }
  if !r.2 then st1
  else
    if jsTrim st1.form.id ≠ "" then
      match jsFindIndex (fun l => l.id == jsTrim st1.form.id) st1.stored with
      | some i =>
        resetFormState { st1 with
          stored := st1.stored.set i
            ⟨jsTrim st1.form.id, jsTrim st1.form.name, jsTrim st1.form.phone,
             jsTrim st1.form.source, jsTrim st1.form.status⟩ }
      | none => resetFormState st1
    else
      resetFormState { st1 with
        stored := st1.stored ++
          [⟨freshId, jsTrim st1.form.name, jsTrim st1.form.phone,
            jsTrim st1.form.source, jsTrim st1.form.status⟩] }

/-- Handler `handleDeleteClick` from `app.js`: remember the target id and open the
confirmation modal (no mutation of the collection). -/
def handleDeleteClick (st : AppState) (clicked : String) : AppState :=
  if clicked = "" then st
  else
    { st with
      deleteTargetId := some clicked
      modalMessage := "Are you sure you want to delete this lead?"
      modalVisible := true }

/-- Handler `confirmDelete` from `app.js`: with a pending (truthy) target id,
remove every record with that id, clear the target, close the modal and
reset the form; without one, just close the modal. -/
def confirmDelete (st : AppState) : AppState :=
  match st.deleteTargetId with
  | none => { st with modalVisible := false }
  | some tid =>
    if tid = "" then { st with modalVisible := false }
    else
      resetFormState { st with
        stored := st.stored.filter (fun l => !(l.id == tid))
        deleteTargetId := none
        modalVisible := false }

/-- Handler `cancelModal` from `app.js`: drop the pending target and close the
modal, leaving everything else alone. -/
def cancelModal (st : AppState) : AppState :=
  { st with deleteTargetId := none, modalVisible := false }

/-- A concrete lead used to instantiate theorems at specific inputs. -/
def wLead1 : Lead := ⟨"x", "A", "1234567", "web", "new"⟩

/-- A second concrete lead sharing the id of `wLead1`. -/
def wLead2 : Lead := ⟨"x", "B", "7654321", "web", "new"⟩

/-- A concrete application state with duplicate ids, a pending delete of
that id, and a validated edit form carrying the same id. -/
def wState10 : AppState :=
  ⟨[wLead1, wLead2], ⟨"x", "Bob", "5550000000", "web", "new"⟩, "Edit Lead", "Update Lead",
    true, ⟨"", "", "", ""⟩, some "x", true, "Are you sure you want to delete this lead?"⟩

theorem string_eq_empty_of_length (s : String) (h : s.length = 0) : s = "" := by
  cases s with
  | mk data =>
    have h2 : data.length = 0 := h
    have h3 : data = [] := List.length_eq_zero.mp h2
    rw [h3]

theorem jsTrim_eq_empty_iff (s : String) : jsTrim s = "" ↔ (jsTrim s).length = 0 := by
  constructor
  · intro h; rw [h]; rfl
  · exact string_eq_empty_of_length (jsTrim s)

theorem containsSub_nil_right (sub : List Char) (h : sub ≠ []) :
    containsSub [] sub = false := by
  simp [containsSub, List.isEmpty_iff, h]

theorem string_ne_empty_data (s : String) (h : s ≠ "") : s.data ≠ [] := by
  intro hd
  apply h
  cases s with
  | mk data =>
    rw [show data = [] from hd]

/-- The code's search predicate agrees with the specification's predicate
whenever the search term is already lower-cased. -/
theorem leadMatches_eq_specMatches (filters : Filters) (lead : Lead)
    (h : jsToLower filters.search = filters.search) :
    leadMatches filters lead = specMatches filters lead := by
  unfold leadMatches specMatches containsCI
  by_cases hs : filters.search = ""
  · simp [hs]
  · have hguard : ∀ t : String,
        (!(t = "") && jsIncludes (jsToLower t) filters.search) =
          jsIncludes (jsToLower t) (jsToLower filters.search) := by
      intro t
      rw [h]
      by_cases ht : t = ""
      · subst ht
        have hfalse : jsIncludes (jsToLower "") filters.search = false := by
          have hd : filters.search.data ≠ [] := string_ne_empty_data _ hs
          show containsSub (jsToLower "").data filters.search.data = false
          exact containsSub_nil_right _ hd
        simp [hfalse]
      · simp [ht]
    simp only [hguard]

end LeadApp

namespace LeadApp

/-- Claim C1: for every list of leads and every filter pair whose search term
is already lower-cased, `filterLeads` returns exactly the leads satisfying
(empty search, or name or phone contains the term case-insensitively) and
(empty status, or exact status equality), as a stable filter that preserves
the relative order of the input. -/
theorem filterLeads_spec (leads : List Lead) (filters : Filters)
    (h : jsToLower filters.search = filters.search) :
    filterLeads leads filters = leads.filter (specMatches filters) ∧
    (filterLeads leads filters).Sublist leads := by
  constructor
  · unfold filterLeads
    apply List.filter_congr
    intro lead _
    exact leadMatches_eq_specMatches filters lead h
  · exact List.filter_sublist leads

theorem filterLeads_spec_witness :
    jsToLower "jo" = "jo" ∧
    (filterLeads [⟨"a", "Jo Smith", "555-1234567", "web", "new"⟩,
                  ⟨"b", "Ann Lee", "555-7654321", "web", "lost"⟩] ⟨"jo", ""⟩ =
      List.filter (specMatches ⟨"jo", ""⟩)
        [⟨"a", "Jo Smith", "555-1234567", "web", "new"⟩,
         ⟨"b", "Ann Lee", "555-7654321", "web", "lost"⟩] ∧
     (filterLeads [⟨"a", "Jo Smith", "555-1234567", "web", "new"⟩,
                   ⟨"b", "Ann Lee", "555-7654321", "web", "lost"⟩] ⟨"jo", ""⟩).Sublist
        [⟨"a", "Jo Smith", "555-1234567", "web", "new"⟩,
         ⟨"b", "Ann Lee", "555-7654321", "web", "lost"⟩]) :=
  ⟨by decide, filterLeads_spec _ _ (by decide)⟩

/-- Claim C2: `validatePhone` accepts exactly the strings whose trimmed form
fully matches `^[\d\s\-()+.]{7,20}$`, i.e. every character lies in the
class and the trimmed length is between 7 and 20 (the empty trimmed string
is rejected by the required-check, and also fails the length bound). -/
theorem phoneRegexTest_iff (s : String) :
    phoneRegexTest s = true ↔
      (s.data.all isPhoneChar = true ∧ 7 ≤ s.length ∧ s.length ≤ 20) := by
  unfold phoneRegexTest
  simp [and_assoc]

theorem validatePhone_spec (value : String) :
    (validatePhone value).valid = true ↔
      ((jsTrim value).data.all isPhoneChar = true ∧
       7 ≤ (jsTrim value).length ∧ (jsTrim value).length ≤ 20) := by
  unfold validatePhone
  split_ifs with h1 h2
  · rw [h1]
    decide
  · exact iff_of_true rfl ((phoneRegexTest_iff _).mp h2)
  · apply iff_of_false
    · simp
    · intro hr
      exact h2 ((phoneRegexTest_iff _).mpr hr)

/-- Claim C3: `validateName` accepts exactly the strings whose trimmed
length is between 1 and 100 inclusive. -/
theorem validateName_spec (value : String) :
    (validateName value).valid = true ↔
      (1 ≤ (jsTrim value).length ∧ (jsTrim value).length ≤ 100) := by
  unfold validateName
  split_ifs with h1 h2
  · rw [h1]
    decide
  · apply iff_of_false
    · simp
    · intro hr
      omega
  · have hlen : (jsTrim value).length ≠ 0 := by
      intro hz; exact h1 ((jsTrim_eq_empty_iff value).mpr hz)
    apply iff_of_true rfl
    constructor
    · omega
    · omega

/-- Claim C7: `validateForm` evaluates all four field validators, reports
every field's message (each field's reported message is exactly its own
validator's message, independent of the others), and passes overall iff
all four validators pass. -/
theorem validateForm_spec (f : FormFields) :
    (runValidateForm f).1 =
      ⟨(validateName f.name).message, (validatePhone f.phone).message,
       (validateSource f.source).message, (validateStatus f.status).message⟩ ∧
    ((runValidateForm f).2 = true ↔
      ((validateName f.name).valid = true ∧ (validatePhone f.phone).valid = true ∧
       (validateSource f.source).valid = true ∧ (validateStatus f.status).valid = true)) := by
  constructor
  · rfl
  · unfold runValidateForm
    simp [Bool.and_eq_true, and_assoc]

end LeadApp

namespace LeadApp

theorem hexVal_hexDig : ∀ m : Nat, m < 16 → hexVal (hexDig m) = some m := by decide

theorem readStr_escList (cs : List Char) (rest : List Char) :
    readStr (escList cs ++ '"' :: rest) = some (cs, rest) := by
  induction cs with
  | nil =>
    show readStr (((([] : List Char).map escChar).flatten) ++ '"' :: rest) = some ([], rest)
    rw [List.map_nil, List.flatten_nil, List.nil_append, readStr.eq_def]
    simp
  | cons c cs ih =>
    have hstep : escList (c :: cs) = escChar c ++ escList cs := by
      show ((c :: cs).map escChar).flatten = escChar c ++ escList cs
      rw [List.map_cons, List.flatten_cons]
      rfl
    rw [hstep, List.append_assoc]
    by_cases h1 : c = '"'
    · subst h1
      rw [show escChar '"' = ['\\', '"'] by rfl]
      rw [List.cons_append, List.cons_append, List.nil_append]
      rw [readStr.eq_def]
      simp [ih]
    · by_cases h2 : c = '\\'
      · subst h2
        rw [show escChar '\\' = ['\\', '\\'] by rfl]
        rw [List.cons_append, List.cons_append, List.nil_append]
        rw [readStr.eq_def]
        simp [ih]
      · by_cases h3 : c = '\x08'
        · subst h3
          rw [show escChar '\x08' = ['\\', 'b'] by rfl]
          rw [List.cons_append, List.cons_append, List.nil_append]
          rw [readStr.eq_def]
          simp [ih]
        · by_cases h4 : c = '\x09'
          · subst h4
            rw [show escChar '\x09' = ['\\', 't'] by rfl]
            rw [List.cons_append, List.cons_append, List.nil_append]
            rw [readStr.eq_def]
            simp [ih]
          · by_cases h5 : c = '\x0a'
            · subst h5
              rw [show escChar '\x0a' = ['\\', 'n'] by rfl]
              rw [List.cons_append, List.cons_append, List.nil_append]
              rw [readStr.eq_def]
              simp [ih]
            · by_cases h6 : c = '\x0c'
              · subst h6
                rw [show escChar '\x0c' = ['\\', 'f'] by rfl]
                rw [List.cons_append, List.cons_append, List.nil_append]
                rw [readStr.eq_def]
                simp [ih]
              · by_cases h7 : c = '\x0d'
                · subst h7
                  rw [show escChar '\x0d' = ['\\', 'r'] by rfl]
                  rw [List.cons_append, List.cons_append, List.nil_append]
                  rw [readStr.eq_def]
                  simp [ih]
                · by_cases h8 : c.toNat < 32
                  · have hesc : escChar c =
                        ['\\', 'u', '0', '0', hexDig (c.toNat / 16), hexDig (c.toNat % 16)] := by
                      rw [escChar.eq_def]
                      simp [h1, h2, h3, h4, h5, h6, h7, h8]
                    rw [hesc]
                    simp only [List.cons_append, List.nil_append]
                    rw [readStr.eq_def]
                    have hdiv : hexVal (hexDig (c.toNat / 16)) = some (c.toNat / 16) :=
                      hexVal_hexDig _ (by omega)
                    have hmod : hexVal (hexDig (c.toNat % 16)) = some (c.toNat % 16) :=
                      hexVal_hexDig _ (by omega)
                    have hvalid : Nat.isValidChar c.toNat := by
                      have hv := c.valid
                      exact hv
                    have hn : 4096 * 0 + 256 * 0 + 16 * (c.toNat / 16) + c.toNat % 16 = c.toNat := by
                      omega
                    simp only [hdiv, hmod]
                    simp only [show hexVal '0' = some 0 from rfl]
                    simp only [hn]
                    simp [hvalid, Char.ofNat_toNat, ih]
                  · have hesc : escChar c = [c] := by
                      rw [escChar.eq_def]
                      simp [h1, h2, h3, h4, h5, h6, h7, h8]
                    rw [hesc]
                    rw [List.cons_append, List.nil_append]
                    rw [readStr.eq_def]
                    simp [h1, h2, h8, ih]

end LeadApp

namespace LeadApp

theorem skipWs_cons_not (c : Char) (cs : List Char) (h : jsonWs c = false) :
    skipWs (c :: cs) = c :: cs := by
  rw [skipWs.eq_def]
  simp [h]

theorem parseRun_val_quote (f : Nat) (rest : List Char) :
    parseRun (f + 1) PMode.val ('"' :: rest) =
      (readStr rest).map (fun p => (JValue.str ⟨p.1⟩, p.2)) := by
  show parseRun (Nat.succ f) PMode.val ('"' :: rest) = _
  rw [parseRun.eq_def]
  dsimp only
  rw [skipWs_cons_not _ _ (by decide)]
  simp

theorem parseRun_val_openBrace (f : Nat) (rest : List Char) :
    parseRun (f + 1) PMode.val ('{' :: rest) = parseRun f PMode.members (skipWs rest) := by
  show parseRun (Nat.succ f) PMode.val ('{' :: rest) = _
  rw [parseRun.eq_def]
  dsimp only
  rw [skipWs_cons_not _ _ (by decide)]
  simp

theorem parseRun_val_openBracket (f : Nat) (rest : List Char) :
    parseRun (f + 1) PMode.val ('[' :: rest) = parseRun f PMode.elems (skipWs rest) := by
  show parseRun (Nat.succ f) PMode.val ('[' :: rest) = _
  rw [parseRun.eq_def]
  dsimp only
  rw [skipWs_cons_not _ _ (by decide)]
  simp

theorem parseRun_elems_close (f : Nat) (rest : List Char) :
    parseRun (f + 1) PMode.elems (']' :: rest) = some (JValue.arr [], rest) := by
  show parseRun (Nat.succ f) PMode.elems (']' :: rest) = _
  rw [parseRun.eq_def]
  dsimp only
  simp

theorem parseRun_elems_ne (f : Nat) (c : Char) (rest : List Char) (h : ¬c = ']') :
    parseRun (f + 1) PMode.elems (c :: rest) = parseRun f PMode.elemsNE (c :: rest) := by
  show parseRun (Nat.succ f) PMode.elems (c :: rest) = _
  rw [parseRun.eq_def]
  dsimp only
  split
  · rename_i heq
    rw [List.cons.injEq] at heq
    exact absurd heq.1 h
  · rfl

theorem parseRun_members_ne (f : Nat) (c : Char) (rest : List Char) (h : ¬c = '}') :
    parseRun (f + 1) PMode.members (c :: rest) = parseRun f PMode.membersNE (c :: rest) := by
  show parseRun (Nat.succ f) PMode.members (c :: rest) = _
  rw [parseRun.eq_def]
  dsimp only
  split
  · rename_i heq
    rw [List.cons.injEq] at heq
    exact absurd heq.1 h
  · rfl

theorem parseRun_elemsNE_eq (f : Nat) (cs : List Char) :
    parseRun (f + 1) PMode.elemsNE cs =
      (match parseRun f PMode.val cs with
       | none => none
       | some (v, cs1) =>
         match skipWs cs1 with
         | ']' :: rest => some (JValue.arr [v], rest)
         | ',' :: rest =>
           (match parseRun f PMode.elemsNE rest with
            | some (JValue.arr vs, cs2) => some (JValue.arr (v :: vs), cs2)
            | _ => none)
         | _ => none) := by
  show parseRun (Nat.succ f) PMode.elemsNE cs = _
  rw [parseRun.eq_def]

theorem parseRun_membersNE_quote (f : Nat) (rest : List Char) :
    parseRun (f + 1) PMode.membersNE ('"' :: rest) =
      (match readStr rest with
       | none => none
       | some (k, cs1) =>
         match skipWs cs1 with
         | ':' :: cs2 =>
           (match parseRun f PMode.val cs2 with
            | none => none
            | some (v, cs3) =>
              match skipWs cs3 with
              | '}' :: rest2 => some (JValue.obj [(⟨k⟩, v)], rest2)
              | ',' :: rest2 =>
                (match parseRun f PMode.membersNE (skipWs rest2) with
                 | some (JValue.obj ms, cs4) => some (JValue.obj ((⟨k⟩, v) :: ms), cs4)
                 | _ => none)
              | _ => none)
         | _ => none) := by
  show parseRun (Nat.succ f) PMode.membersNE ('"' :: rest) = _
  rw [parseRun.eq_def]
  dsimp only
  simp

end LeadApp

namespace LeadApp

theorem parseRun_membersNE_cons (f : Nat) (key val tail : List Char)
    (ms : List (String × JValue)) (rest : List Char)
    (htail : parseRun (f + 1) PMode.membersNE tail = some (JValue.obj ms, rest))
    (hws : skipWs tail = tail) :
    parseRun (f + 2) PMode.membersNE
      ('"' :: (escList key ++ '"' :: ':' :: '"' :: (escList val ++ '"' :: ',' :: tail))) =
      some (JValue.obj ((⟨key⟩, JValue.str ⟨val⟩) :: ms), rest) := by
  rw [show f + 2 = (f + 1) + 1 by omega]
  rw [parseRun_membersNE_quote]
  rw [readStr_escList]
  dsimp only
  rw [skipWs_cons_not _ _ (by decide)]
  simp only [List.cons.injEq]
  rw [parseRun_val_quote f]
  rw [readStr_escList]
  simp only [Option.map_some']
  rw [skipWs_cons_not _ _ (by decide)]
  simp only [List.cons.injEq]
  rw [hws, htail]

theorem parseRun_membersNE_last (f : Nat) (key val rest : List Char) :
    parseRun (f + 2) PMode.membersNE
      ('"' :: (escList key ++ '"' :: ':' :: '"' :: (escList val ++ '"' :: '}' :: rest))) =
      some (JValue.obj [(⟨key⟩, JValue.str ⟨val⟩)], rest) := by
  rw [show f + 2 = (f + 1) + 1 by omega]
  rw [parseRun_membersNE_quote]
  rw [readStr_escList]
  dsimp only
  rw [skipWs_cons_not _ _ (by decide)]
  simp only [List.cons.injEq]
  rw [parseRun_val_quote f]
  rw [readStr_escList]
  simp only [Option.map_some']
  rw [skipWs_cons_not _ _ (by decide)]
  simp only [List.cons.injEq]

theorem parseRun_leadObj (f : Nat) (l : Lead) (rest : List Char) :
    parseRun (f + 8) PMode.val (stringifyLeadL l ++ rest) = some (leadJ l, rest) := by
  simp only [stringifyLeadL, quoteL, List.append_assoc, List.cons_append, List.nil_append]
  rw [show f + 8 = (f + 7) + 1 by omega]
  rw [parseRun_val_openBrace]
  rw [skipWs_cons_not _ _ (by decide)]
  rw [show f + 7 = (f + 6) + 1 by omega]
  rw [parseRun_members_ne _ _ _ (by decide)]
  have h5 : parseRun (f + 2) PMode.membersNE
      ('"' :: (escList "status".data ++ '"' :: ':' :: '"' :: (escList l.status.data ++ '"' :: '}' :: rest))) =
      some (JValue.obj [("status", JValue.str l.status)], rest) :=
    parseRun_membersNE_last f "status".data l.status.data rest
  have h4 := parseRun_membersNE_cons (f + 1) "source".data l.source.data _ _ _ h5 rfl
  have h3 := parseRun_membersNE_cons (f + 2) "phone".data l.phone.data _ _ _ h4 rfl
  have h2 := parseRun_membersNE_cons (f + 3) "name".data l.name.data _ _ _ h3 rfl
  have h1 := parseRun_membersNE_cons (f + 4) "id".data l.id.data _ _ _ h2 rfl
  rw [show f + 6 = (f + 4) + 2 by omega]
  rw [h1]
  rfl

end LeadApp

namespace LeadApp

theorem stringifyLeadL_head (l : Lead) : ∃ t, stringifyLeadL l = '{' :: t := by
  unfold stringifyLeadL
  simp only [List.append_assoc, List.singleton_append]
  exact ⟨_, rfl⟩

theorem stringifyLeadsInner_cons_head (l : Lead) (L : List Lead) :
    ∃ t, stringifyLeadsInner (l :: L) = '{' :: t := by
  obtain ⟨t, ht⟩ := stringifyLeadL_head l
  cases L with
  | nil => exact ⟨t, ht⟩
  | cons l2 L2 =>
    refine ⟨t ++ [','] ++ stringifyLeadsInner (l2 :: L2), ?_⟩
    show stringifyLeadL l ++ [','] ++ stringifyLeadsInner (l2 :: L2) = _
    rw [ht]
    simp

theorem parseRun_leadList (L : List Lead) :
    ∀ (f : Nat) (rest : List Char), L ≠ [] → L.length + 9 ≤ f →
      parseRun f PMode.elemsNE (stringifyLeadsInner L ++ ']' :: rest) =
        some (JValue.arr (L.map leadJ), rest) := by
  induction L with
  | nil => intro f rest hne _; exact absurd rfl hne
  | cons l L' ih =>
    intro f rest _ hf
    obtain ⟨g, rfl⟩ : ∃ g, f = (g + 8) + 1 := ⟨f - 9, by omega⟩
    cases L' with
    | nil =>
      show parseRun ((g + 8) + 1) PMode.elemsNE (stringifyLeadL l ++ ']' :: rest) = _
      rw [parseRun_elemsNE_eq]
      rw [parseRun_leadObj g l (']' :: rest)]
      dsimp only
      rw [skipWs_cons_not _ _ (by decide)]
      simp only [List.cons.injEq]
      rfl
    | cons l2 L'' =>
      show parseRun ((g + 8) + 1) PMode.elemsNE
          ((stringifyLeadL l ++ [','] ++ stringifyLeadsInner (l2 :: L'')) ++ ']' :: rest) = _
      rw [List.append_assoc, List.append_assoc]
      rw [parseRun_elemsNE_eq]
      rw [show ([','] : List Char) ++ (stringifyLeadsInner (l2 :: L'') ++ ']' :: rest) =
          ',' :: (stringifyLeadsInner (l2 :: L'') ++ ']' :: rest) from rfl]
      rw [parseRun_leadObj g l]
      dsimp only
      rw [skipWs_cons_not _ _ (by decide)]
      simp only [List.cons.injEq]
      rw [ih (g + 8) rest (by simp) (by simp at hf ⊢; omega)]
      rfl

theorem stringifyLeadsInner_length (L : List Lead) :
    L.length ≤ (stringifyLeadsInner L).length := by
  induction L with
  | nil => simp [stringifyLeadsInner]
  | cons l L' ih =>
    obtain ⟨t, ht⟩ := stringifyLeadL_head l
    cases L' with
    | nil =>
      show 1 ≤ (stringifyLeadL l).length
      rw [ht]
      simp
    | cons l2 L'' =>
      show (l2 :: L'').length + 1 ≤ (stringifyLeadL l ++ [','] ++ stringifyLeadsInner (l2 :: L'')).length
      rw [ht]
      simp only [List.length_append, List.length_cons, List.cons_append] at ih ⊢
      omega

theorem parseRun_leadArray (L : List Lead) (f : Nat) (rest : List Char)
    (hf : L.length + 11 ≤ f) :
    parseRun f PMode.val (stringifyLeadsL L ++ rest) =
      some (JValue.arr (L.map leadJ), rest) := by
  obtain ⟨g, rfl⟩ : ∃ g, f = g + 1 := ⟨f - 1, by omega⟩
  show parseRun (g + 1) PMode.val ((['['] ++ stringifyLeadsInner L ++ [']']) ++ rest) = _
  simp only [List.append_assoc, List.singleton_append, List.cons_append, List.nil_append]
  rw [parseRun_val_openBracket g (stringifyLeadsInner L ++ ']' :: rest)]
  cases L with
  | nil =>
    show parseRun g PMode.elems (skipWs (([] : List Char) ++ ']' :: rest)) = _
    rw [List.nil_append]
    rw [skipWs_cons_not _ _ (by decide)]
    obtain ⟨h, rfl⟩ : ∃ h, g = h + 1 := ⟨g - 1, by omega⟩
    rw [parseRun_elems_close]
    rfl
  | cons l L' =>
    obtain ⟨t, ht⟩ := stringifyLeadsInner_cons_head l L'
    have hskip : skipWs (stringifyLeadsInner (l :: L') ++ ']' :: rest) =
        stringifyLeadsInner (l :: L') ++ ']' :: rest := by
      rw [ht, List.cons_append]
      exact skipWs_cons_not _ _ (by decide)
    rw [hskip]
    obtain ⟨h, rfl⟩ : ∃ h, g = h + 1 := ⟨g - 1, by omega⟩
    have hne2 : parseRun (h + 1) PMode.elems (stringifyLeadsInner (l :: L') ++ ']' :: rest) =
        parseRun h PMode.elemsNE (stringifyLeadsInner (l :: L') ++ ']' :: rest) := by
      rw [ht, List.cons_append]
      exact parseRun_elems_ne _ _ _ (by decide)
    rw [hne2]
    exact parseRun_leadList (l :: L') h rest (by simp) (by simp at hf ⊢; omega)

theorem stringifyLeads_data (L : List Lead) : (stringifyLeads L).data = stringifyLeadsL L := rfl

theorem parseJson_stringifyLeads (L : List Lead) :
    parseJson (stringifyLeads L) = some (JValue.arr (L.map leadJ)) := by
  unfold parseJson
  have hlen : (stringifyLeads L).length = (stringifyLeadsL L).length := rfl
  have hbound : L.length + 11 ≤ 4 * (stringifyLeads L).length + 8 := by
    rw [hlen]
    show L.length + 11 ≤ 4 * (['['] ++ stringifyLeadsInner L ++ [']']).length + 8
    have h1 : (['['] ++ stringifyLeadsInner L ++ [']']).length =
        (stringifyLeadsInner L).length + 2 := by simp
    have h2 := stringifyLeadsInner_length L
    omega
  rw [stringifyLeads_data]
  rw [show stringifyLeadsL L = stringifyLeadsL L ++ [] by simp]
  rw [parseRun_leadArray L _ [] (by simpa using hbound)]
  rfl

theorem decodeLead_leadJ (l : Lead) : decodeLead (leadJ l) = some l := by
  cases l
  rfl

theorem decodeLeadList_map (L : List Lead) :
    decodeLeadList (L.map leadJ) = some L := by
  induction L with
  | nil => rfl
  | cons l L' ih =>
    show decodeLeadList (leadJ l :: L'.map leadJ) = some (l :: L')
    rw [decodeLeadList.eq_def]
    dsimp only
    rw [decodeLead_leadJ, ih]

end LeadApp

namespace LeadApp

theorem stringifyLeads_ne_empty (L : List Lead) : stringifyLeads L ≠ "" := by
  intro h
  have hd := congrArg String.data h
  rw [stringifyLeads_data] at hd
  simp only [stringifyLeadsL, List.cons_append, List.nil_append] at hd
  exact absurd hd (by simp)

/-- Claim C5: saving any collection and loading it back yields the same
collection, order and fields included. -/
theorem store_roundtrip (L : List Lead) (slot : Option String) :
    decodeLeads (getLeads (saveLeads false slot L)) = some L := by
  have hsave : saveLeads false slot L = some (stringifyLeads L) := by
    unfold saveLeads
    simp
  rw [hsave]
  unfold getLeads
  dsimp only
  rw [if_neg (stringifyLeads_ne_empty L)]
  rw [parseJson_stringifyLeads]
  show decodeLeadList (L.map leadJ) = some L
  exact decodeLeadList_map L

/-- Claim C6: the Store never propagates a fault: an absent slot loads as
the empty collection, a slot whose text does not parse loads as the empty
collection, and a failed write leaves the slot unchanged. (All functions
are total, so no exception can escape.) -/
theorem store_error_handling :
    getLeads none = JValue.arr [] ∧
    (∀ s : String, parseJson s = none → getLeads (some s) = JValue.arr []) ∧
    (∀ (slot : Option String) (L : List Lead), saveLeads true slot L = slot) := by
  refine ⟨rfl, ?_, ?_⟩
  · intro s h
    unfold getLeads
    dsimp only
    by_cases hs : s = ""
    · rw [if_pos hs]
    · rw [if_neg hs, h]
  · intro slot L
    unfold saveLeads
    simp

theorem store_error_handling_witness :
    parseJson "\x7b" = none ∧ getLeads (some "\x7b") = JValue.arr [] := by
  have hp : parseJson "\x7b" = none := Option.isNone_iff_eq_none.mp (by decide)
  exact ⟨hp, store_error_handling.2.1 "\x7b" hp⟩

end LeadApp

namespace LeadApp

theorem jsFindIndex_eq_none (p : Lead → Bool) (l : List Lead)
    (h : ∀ x ∈ l, p x = false) : jsFindIndex p l = none := by
  induction l with
  | nil => rfl
  | cons a l' ih =>
    show (if p a then some 0 else (jsFindIndex p l').map (fun i => i + 1)) = none
    rw [h a (List.mem_cons_self a l'), if_neg (by simp)]
    rw [ih (fun x hx => h x (List.mem_cons_of_mem a hx))]
    rfl

theorem jsFindIndex_first (p : Lead → Bool) (l : List Lead) :
    ∀ (i : Nat) (hi : i < l.length), p (l.get ⟨i, hi⟩) = true →
      (∀ (j : Nat) (hj : j < l.length), j < i → p (l.get ⟨j, hj⟩) = false) →
      jsFindIndex p l = some i := by
  induction l with
  | nil => intro i hi; simp at hi
  | cons a l' ih =>
    intro i hi hp hmin
    show (if p a then some 0 else (jsFindIndex p l').map (fun n => n + 1)) = some i
    cases i with
    | zero =>
      have hpa : p a = true := hp
      rw [if_pos hpa]
    | succ k =>
      have ha : p a = false := hmin 0 (by simp) (by omega)
      rw [if_neg (by simp [ha])]
      have hk : k < l'.length := by
        have := hi
        simp at this
        omega
      have hpk : p (l'.get ⟨k, hk⟩) = true := hp
      have hmink : ∀ (j : Nat) (hj : j < l'.length), j < k → p (l'.get ⟨j, hj⟩) = false := by
        intro j hj hjk
        have := hmin (j + 1) (by simp; omega) (by omega)
        exact this
      rw [ih k hk hpk hmink]
      rfl

theorem jsFindIndex_sound (p : Lead → Bool) (l : List Lead) :
    ∀ (k : Nat), jsFindIndex p l = some k →
      ∃ hk : k < l.length, p (l.get ⟨k, hk⟩) = true ∧
        (∀ (m : Nat) (hm : m < l.length), m < k → p (l.get ⟨m, hm⟩) = false) := by
  induction l with
  | nil => intro k h; exact absurd h (by simp [jsFindIndex])
  | cons a l' ih =>
    intro k h
    rw [show jsFindIndex p (a :: l') =
        (if p a then some 0 else (jsFindIndex p l').map (fun n => n + 1)) from rfl] at h
    by_cases hpa : p a = true
    · rw [if_pos hpa] at h
      have hk0 : k = 0 := by
        have := Option.some.inj h
        omega
      subst hk0
      exact ⟨by simp, hpa, fun m hm hmk => by omega⟩
    · rw [if_neg hpa] at h
      match hfind : jsFindIndex p l' with
      | none => rw [hfind] at h; exact absurd h (by simp)
      | some k' =>
        rw [hfind] at h
        have hk : k = k' + 1 := by
          simp at h
          omega
        subst hk
        obtain ⟨hk', hp', hmin'⟩ := ih k' hfind
        refine ⟨by simp; omega, hp', ?_⟩
        intro m hm hmk
        cases m with
        | zero =>
          simpa using (Bool.eq_false_iff.mpr hpa)
        | succ m' =>
          have hm' : m' < l'.length := by simp at hm; omega
          exact hmin' m' hm' (by omega)

theorem jsFindIndex_isSome (p : Lead → Bool) (l : List Lead) (x : Lead)
    (hx : x ∈ l) (hp : p x = true) : ∃ k, jsFindIndex p l = some k := by
  induction l with
  | nil => exact absurd hx (by simp)
  | cons a l' ih =>
    show ∃ k, (if p a then some 0 else (jsFindIndex p l').map (fun n => n + 1)) = some k
    by_cases hpa : p a = true
    · exact ⟨0, by rw [if_pos hpa]⟩
    · rcases List.mem_cons.mp hx with hxa | hxl
      · subst hxa; exact absurd hp hpa
      · obtain ⟨k, hk⟩ := ih hxl
        exact ⟨k + 1, by rw [if_neg hpa, hk]; rfl⟩

theorem list_set_get_self {α : Type} : ∀ (l : List α) (i : Nat) (a : α),
    l.get? i = some a → l.set i a = l := by
  intro l
  induction l with
  | nil => intro i a h; exact absurd h (by simp)
  | cons b l' ih =>
    intro i a h
    cases i with
    | zero =>
      have : a = b := by simpa using h.symm
      subst this
      rfl
    | succ k =>
      have h' : l'.get? k = some a := by simpa using h
      show b :: l'.set k a = b :: l'
      rw [ih k a h']

end LeadApp

namespace LeadApp

theorem handleFormSubmit_invalid (st : AppState) (freshId : String)
    (hok : (runValidateForm st.form).2 = false) :
    (handleFormSubmit st freshId).stored = st.stored := by
  simp [handleFormSubmit, hok]

theorem handleFormSubmit_update_found (st : AppState) (freshId : String) (k : Nat)
    (hok : (runValidateForm st.form).2 = true)
    (hne : ¬jsTrim st.form.id = "")
    (hfind : jsFindIndex (fun l => l.id == jsTrim st.form.id) st.stored = some k) :
    (handleFormSubmit st freshId).stored =
      st.stored.set k ⟨jsTrim st.form.id, jsTrim st.form.name, jsTrim st.form.phone,
        jsTrim st.form.source, jsTrim st.form.status⟩ := by
  simp [handleFormSubmit, resetFormState, hok, hne, hfind]

theorem handleFormSubmit_update_notfound (st : AppState) (freshId : String)
    (hok : (runValidateForm st.form).2 = true)
    (hne : ¬jsTrim st.form.id = "")
    (hfind : jsFindIndex (fun l => l.id == jsTrim st.form.id) st.stored = none) :
    (handleFormSubmit st freshId).stored = st.stored := by
  simp [handleFormSubmit, resetFormState, hok, hne, hfind]

theorem handleFormSubmit_add (st : AppState) (freshId : String)
    (hok : (runValidateForm st.form).2 = true)
    (hid : jsTrim st.form.id = "") :
    (handleFormSubmit st freshId).stored =
      st.stored ++ [⟨freshId, jsTrim st.form.name, jsTrim st.form.phone,
        jsTrim st.form.source, jsTrim st.form.status⟩] := by
  simp [handleFormSubmit, resetFormState, hok, hid]

end LeadApp

namespace LeadApp

/-- Claim C4: on a validated submit carrying a non-empty id, if some stored
record has that id the first such record is replaced wholesale (same id,
same position) in the persisted collection; if none has it, the persisted
collection is left unchanged (silent no-op, no error). -/
theorem update_semantics (st : AppState) (freshId id : String)
    (hok : (runValidateForm st.form).2 = true)
    (hid : jsTrim st.form.id = id) (hne : id ≠ "") :
    ((∀ l ∈ st.stored, l.id ≠ id) → (handleFormSubmit st freshId).stored = st.stored) ∧
    (∀ (i : Nat) (hi : i < st.stored.length), (st.stored.get ⟨i, hi⟩).id = id →
      (∀ (j : Nat) (hj : j < st.stored.length), j < i → (st.stored.get ⟨j, hj⟩).id ≠ id) →
      (handleFormSubmit st freshId).stored =
        st.stored.set i ⟨id, jsTrim st.form.name, jsTrim st.form.phone,
          jsTrim st.form.source, jsTrim st.form.status⟩) := by
  have hne' : ¬jsTrim st.form.id = "" := by rw [hid]; exact hne
  constructor
  · intro hall
    apply handleFormSubmit_update_notfound st freshId hok hne'
    apply jsFindIndex_eq_none
    intro x hx
    have hxne := hall x hx
    rw [hid]
    simp only [beq_eq_false_iff_ne, ne_eq]
    exact hxne
  · intro i hi hpi hmin
    have hfind : jsFindIndex (fun l => l.id == jsTrim st.form.id) st.stored = some i := by
      apply jsFindIndex_first
      · show ((st.stored.get ⟨i, hi⟩).id == jsTrim st.form.id) = true
        rw [hid, hpi]
        simp
      · intro j hj hji
        show ((st.stored.get ⟨j, hj⟩).id == jsTrim st.form.id) = false
        rw [hid]
        simp only [beq_eq_false_iff_ne, ne_eq]
        exact hmin j hj hji
    rw [handleFormSubmit_update_found st freshId i hok hne' hfind, hid]

theorem update_semantics_witness :
    (runValidateForm (⟨"x", "Bob", "5550000000", "web", "new"⟩ : FormFields)).2 = true ∧
    jsTrim (⟨"x", "Bob", "5550000000", "web", "new"⟩ : FormFields).id = "x" ∧
    ("x" : String) ≠ "" ∧
    (((∀ l ∈ (⟨[⟨"x", "A", "1234567", "web", "new"⟩],
          ⟨"x", "Bob", "5550000000", "web", "new"⟩, "Edit Lead", "Update Lead", true,
          ⟨"", "", "", ""⟩, none, false, ""⟩ : AppState).stored, l.id ≠ "x") →
        (handleFormSubmit (⟨[⟨"x", "A", "1234567", "web", "new"⟩],
          ⟨"x", "Bob", "5550000000", "web", "new"⟩, "Edit Lead", "Update Lead", true,
          ⟨"", "", "", ""⟩, none, false, ""⟩ : AppState) "lead_1").stored =
          (⟨[⟨"x", "A", "1234567", "web", "new"⟩],
          ⟨"x", "Bob", "5550000000", "web", "new"⟩, "Edit Lead", "Update Lead", true,
          ⟨"", "", "", ""⟩, none, false, ""⟩ : AppState).stored) ∧
      (∀ (i : Nat) (hi : i < (⟨[⟨"x", "A", "1234567", "web", "new"⟩],
          ⟨"x", "Bob", "5550000000", "web", "new"⟩, "Edit Lead", "Update Lead", true,
          ⟨"", "", "", ""⟩, none, false, ""⟩ : AppState).stored.length),
        ((⟨[⟨"x", "A", "1234567", "web", "new"⟩],
          ⟨"x", "Bob", "5550000000", "web", "new"⟩, "Edit Lead", "Update Lead", true,
          ⟨"", "", "", ""⟩, none, false, ""⟩ : AppState).stored.get ⟨i, hi⟩).id = "x" →
        (∀ (j : Nat) (hj : j < (⟨[⟨"x", "A", "1234567", "web", "new"⟩],
          ⟨"x", "Bob", "5550000000", "web", "new"⟩, "Edit Lead", "Update Lead", true,
          ⟨"", "", "", ""⟩, none, false, ""⟩ : AppState).stored.length), j < i →
          ((⟨[⟨"x", "A", "1234567", "web", "new"⟩],
          ⟨"x", "Bob", "5550000000", "web", "new"⟩, "Edit Lead", "Update Lead", true,
          ⟨"", "", "", ""⟩, none, false, ""⟩ : AppState).stored.get ⟨j, hj⟩).id ≠ "x") →
        (handleFormSubmit (⟨[⟨"x", "A", "1234567", "web", "new"⟩],
          ⟨"x", "Bob", "5550000000", "web", "new"⟩, "Edit Lead", "Update Lead", true,
          ⟨"", "", "", ""⟩, none, false, ""⟩ : AppState) "lead_1").stored =
          (⟨[⟨"x", "A", "1234567", "web", "new"⟩],
          ⟨"x", "Bob", "5550000000", "web", "new"⟩, "Edit Lead", "Update Lead", true,
          ⟨"", "", "", ""⟩, none, false, ""⟩ : AppState).stored.set i
            ⟨"x", jsTrim (⟨"x", "Bob", "5550000000", "web", "new"⟩ : FormFields).name,
             jsTrim (⟨"x", "Bob", "5550000000", "web", "new"⟩ : FormFields).phone,
             jsTrim (⟨"x", "Bob", "5550000000", "web", "new"⟩ : FormFields).source,
             jsTrim (⟨"x", "Bob", "5550000000", "web", "new"⟩ : FormFields).status⟩)) :=
  ⟨by decide, by decide, by decide,
    update_semantics _ "lead_1" "x" (by decide) (by decide) (by decide)⟩

end LeadApp

namespace LeadApp

/-- Claim C8: clicking delete only records the pending target; the stored
collection is unchanged before confirmation and unchanged on cancel, while
confirming removes the record(s) with the pending id, clears the pending
target and resets the form to add mode. -/
theorem delete_confirmation (st : AppState) (tid : String) (hne : tid ≠ "") :
    (handleDeleteClick st tid).stored = st.stored ∧
    (cancelModal (handleDeleteClick st tid)).stored = st.stored ∧
    (confirmDelete (handleDeleteClick st tid)).stored =
      st.stored.filter (fun l => !(l.id == tid)) ∧
    (confirmDelete (handleDeleteClick st tid)).deleteTargetId = none ∧
    (confirmDelete (handleDeleteClick st tid)).form = ⟨"", "", "", "", ""⟩ ∧
    (confirmDelete (handleDeleteClick st tid)).formTitle = "Add New Lead" := by
  refine ⟨?_, ?_, ?_, ?_, ?_, ?_⟩ <;>
    simp [handleDeleteClick, cancelModal, confirmDelete, resetFormState, hne]

theorem delete_confirmation_witness :
    ("x" : String) ≠ "" ∧
    ((handleDeleteClick (⟨[⟨"x", "A", "1234567", "web", "new"⟩], ⟨"", "", "", "", ""⟩,
        "Add New Lead", "Add Lead", false, ⟨"", "", "", ""⟩, none, false, ""⟩ : AppState)
        "x").stored =
      (⟨[⟨"x", "A", "1234567", "web", "new"⟩], ⟨"", "", "", "", ""⟩,
        "Add New Lead", "Add Lead", false, ⟨"", "", "", ""⟩, none, false, ""⟩ : AppState).stored ∧
     (cancelModal (handleDeleteClick (⟨[⟨"x", "A", "1234567", "web", "new"⟩], ⟨"", "", "", "", ""⟩,
        "Add New Lead", "Add Lead", false, ⟨"", "", "", ""⟩, none, false, ""⟩ : AppState)
        "x")).stored =
      (⟨[⟨"x", "A", "1234567", "web", "new"⟩], ⟨"", "", "", "", ""⟩,
        "Add New Lead", "Add Lead", false, ⟨"", "", "", ""⟩, none, false, ""⟩ : AppState).stored ∧
     (confirmDelete (handleDeleteClick (⟨[⟨"x", "A", "1234567", "web", "new"⟩], ⟨"", "", "", "", ""⟩,
        "Add New Lead", "Add Lead", false, ⟨"", "", "", ""⟩, none, false, ""⟩ : AppState)
        "x")).stored =
      (⟨[⟨"x", "A", "1234567", "web", "new"⟩], ⟨"", "", "", "", ""⟩,
        "Add New Lead", "Add Lead", false, ⟨"", "", "", ""⟩, none, false, ""⟩ : AppState).stored.filter
        (fun l => !(l.id == "x")) ∧
     (confirmDelete (handleDeleteClick (⟨[⟨"x", "A", "1234567", "web", "new"⟩], ⟨"", "", "", "", ""⟩,
        "Add New Lead", "Add Lead", false, ⟨"", "", "", ""⟩, none, false, ""⟩ : AppState)
        "x")).deleteTargetId = none ∧
     (confirmDelete (handleDeleteClick (⟨[⟨"x", "A", "1234567", "web", "new"⟩], ⟨"", "", "", "", ""⟩,
        "Add New Lead", "Add Lead", false, ⟨"", "", "", ""⟩, none, false, ""⟩ : AppState)
        "x")).form = (⟨"", "", "", "", ""⟩ : FormFields) ∧
     (confirmDelete (handleDeleteClick (⟨[⟨"x", "A", "1234567", "web", "new"⟩], ⟨"", "", "", "", ""⟩,
        "Add New Lead", "Add Lead", false, ⟨"", "", "", ""⟩, none, false, ""⟩ : AppState)
        "x")).formTitle = "Add New Lead") :=
  ⟨by decide, delete_confirmation _ "x" (by decide)⟩

/-- Claim C9: pairwise-distinct record ids are an invariant of the
collection: a submit (update by id, or add under a fresh id) and a
confirmed delete both preserve distinctness. -/
theorem id_uniqueness (st : AppState) (freshId : String)
    (hnd : (st.stored.map Lead.id).Nodup) :
    (freshId ∉ st.stored.map Lead.id →
      ((handleFormSubmit st freshId).stored.map Lead.id).Nodup) ∧
    ((confirmDelete st).stored.map Lead.id).Nodup := by
  constructor
  · intro hfresh
    by_cases hok : (runValidateForm st.form).2 = true
    · by_cases hid : jsTrim st.form.id = ""
      · rw [handleFormSubmit_add st freshId hok hid]
        rw [List.map_append]
        refine List.Nodup.append hnd (by simp) ?_
        intro a ha hb
        simp only [List.map_cons, List.map_nil, List.mem_singleton] at hb
        subst hb
        exact hfresh ha
      · rcases hfind : jsFindIndex (fun l => l.id == jsTrim st.form.id) st.stored with _ | k
        · rw [handleFormSubmit_update_notfound st freshId hok hid hfind]
          exact hnd
        · rw [handleFormSubmit_update_found st freshId k hok hid hfind]
          obtain ⟨hk, hpk, _⟩ := jsFindIndex_sound _ _ k hfind
          have hkid : (st.stored.get ⟨k, hk⟩).id = jsTrim st.form.id := by
            simpa using hpk
          rw [List.map_set]
          have hget : (st.stored.map Lead.id).get? k = some (jsTrim st.form.id) := by
            rw [List.get?_map, List.get?_eq_get hk]
            simp only [Option.map_some']
            rw [hkid]
          rw [show (Lead.id ⟨jsTrim st.form.id, jsTrim st.form.name, jsTrim st.form.phone,
              jsTrim st.form.source, jsTrim st.form.status⟩) = jsTrim st.form.id from rfl]
          rw [list_set_get_self _ _ _ hget]
          exact hnd
    · have hok' : (runValidateForm st.form).2 = false := by
        cases h2 : (runValidateForm st.form).2
        · rfl
        · exact absurd h2 hok
      rw [handleFormSubmit_invalid st freshId hok']
      exact hnd
  · rcases hdel : st.deleteTargetId with _ | tid
    · simp only [confirmDelete, hdel]
      exact hnd
    · by_cases htid : tid = ""
      · simp only [confirmDelete, hdel, htid, if_pos]
        simpa using hnd
      · simp only [confirmDelete, hdel, if_neg htid, resetFormState]
        exact List.Nodup.sublist (List.Sublist.map _ (List.filter_sublist _)) hnd

theorem id_uniqueness_witness :
    ((((⟨[⟨"a", "A", "1234567", "web", "new"⟩], ⟨"", "Bob", "5550000000", "web", "new"⟩,
        "Add New Lead", "Add Lead", false, ⟨"", "", "", ""⟩, none, false, ""⟩ : AppState)).stored.map
        Lead.id).Nodup) ∧
    (("b" : String) ∉ ((⟨[⟨"a", "A", "1234567", "web", "new"⟩], ⟨"", "Bob", "5550000000", "web", "new"⟩,
        "Add New Lead", "Add Lead", false, ⟨"", "", "", ""⟩, none, false, ""⟩ : AppState)).stored.map Lead.id →
      ((handleFormSubmit ((⟨[⟨"a", "A", "1234567", "web", "new"⟩], ⟨"", "Bob", "5550000000", "web", "new"⟩,
        "Add New Lead", "Add Lead", false, ⟨"", "", "", ""⟩, none, false, ""⟩ : AppState)) "b").stored.map
        Lead.id).Nodup) ∧
    ((confirmDelete ((⟨[⟨"a", "A", "1234567", "web", "new"⟩], ⟨"", "Bob", "5550000000", "web", "new"⟩,
        "Add New Lead", "Add Lead", false, ⟨"", "", "", ""⟩, none, false, ""⟩ : AppState))).stored.map
        Lead.id).Nodup :=
  ⟨by decide, id_uniqueness _ "b" (by decide)⟩

end LeadApp

namespace LeadApp

/-- Claim C10: with duplicate ids in the collection, a confirmed delete of
that id removes every record bearing it, while an update with that id
replaces only the first matching record and leaves every other position,
in particular the later duplicates, unchanged. -/
theorem duplicate_ids (st : AppState) (freshId id : String) (i j : Nat)
    (hj : j < st.stored.length) (hij : i < j)
    (hid1 : (st.stored.get ⟨i, Nat.lt_trans hij hj⟩).id = id)
    (hid2 : (st.stored.get ⟨j, hj⟩).id = id)
    (hdel : st.deleteTargetId = some id) (hne : id ≠ "")
    (hok : (runValidateForm st.form).2 = true) (hfid : jsTrim st.form.id = id) :
    (∀ l ∈ (confirmDelete st).stored, l.id ≠ id) ∧
    (∀ l ∈ st.stored, l.id ≠ id → l ∈ (confirmDelete st).stored) ∧
    (∃ (k : Nat) (hk : k < st.stored.length), k ≤ i ∧ (st.stored.get ⟨k, hk⟩).id = id ∧
      (∀ (m : Nat) (hm : m < st.stored.length), m < k → (st.stored.get ⟨m, hm⟩).id ≠ id) ∧
      (handleFormSubmit st freshId).stored =
        st.stored.set k ⟨id, jsTrim st.form.name, jsTrim st.form.phone,
          jsTrim st.form.source, jsTrim st.form.status⟩ ∧
      (∀ m : Nat, m ≠ k →
        (handleFormSubmit st freshId).stored.get? m = st.stored.get? m)) := by
  have hcd : (confirmDelete st).stored = st.stored.filter (fun l => !(l.id == id)) := by
    simp [confirmDelete, hdel, hne, resetFormState]
  refine ⟨?_, ?_, ?_⟩
  · intro l hl
    rw [hcd] at hl
    have hmem := List.mem_filter.mp hl
    simpa using hmem.2
  · intro l hl hlne
    rw [hcd]
    exact List.mem_filter.mpr ⟨hl, by simpa using hlne⟩
  · have hi : i < st.stored.length := Nat.lt_trans hij hj
    have hmem : st.stored.get ⟨i, hi⟩ ∈ st.stored := List.get_mem st.stored i hi
    have hp : (fun l => l.id == jsTrim st.form.id) (st.stored.get ⟨i, hi⟩) = true := by
      show ((st.stored.get ⟨i, hi⟩).id == jsTrim st.form.id) = true
      rw [hfid, hid1]
      simp
    obtain ⟨k, hfind⟩ :=
      jsFindIndex_isSome (fun l => l.id == jsTrim st.form.id) st.stored _ hmem hp
    obtain ⟨hk, hpk, hmin⟩ := jsFindIndex_sound _ _ k hfind
    have hki : k ≤ i := by
      by_contra hgt
      push_neg at hgt
      have hfalse := hmin i hi hgt
      rw [show (st.stored.get ⟨i, hi⟩) = (st.stored.get ⟨i, Nat.lt_trans hij hj⟩) from rfl] at hfalse
      rw [hid1, hfid] at hfalse
      simp at hfalse
    have hkid : (st.stored.get ⟨k, hk⟩).id = id := by
      have := hpk
      rw [hfid] at this
      simpa using this
    have hminne : ∀ (m : Nat) (hm : m < st.stored.length), m < k →
        (st.stored.get ⟨m, hm⟩).id ≠ id := by
      intro m hm hmk
      have := hmin m hm hmk
      rw [hfid] at this
      simpa using this
    have hne' : ¬jsTrim st.form.id = "" := by rw [hfid]; exact hne
    have hupd := handleFormSubmit_update_found st freshId k hok hne' hfind
    rw [hfid] at hupd
    refine ⟨k, hk, hki, hkid, hminne, hupd, ?_⟩
    intro m hm
    rw [hupd]
    exact List.get?_set_ne _ _ (fun hcontra => hm hcontra.symm)

theorem duplicate_ids_witness :
    (1 : Nat) < wState10.stored.length ∧ (0 : Nat) < 1 ∧
    (wState10.stored.get ⟨0, by decide⟩).id = "x" ∧
    (wState10.stored.get ⟨1, by decide⟩).id = "x" ∧
    wState10.deleteTargetId = some "x" ∧ ("x" : String) ≠ "" ∧
    (runValidateForm wState10.form).2 = true ∧ jsTrim wState10.form.id = "x" ∧
    ((∀ l ∈ (confirmDelete wState10).stored, l.id ≠ "x") ∧
     (∀ l ∈ wState10.stored, l.id ≠ "x" → l ∈ (confirmDelete wState10).stored) ∧
     (∃ (k : Nat) (hk : k < wState10.stored.length), k ≤ 0 ∧
        (wState10.stored.get ⟨k, hk⟩).id = "x" ∧
        (∀ (m : Nat) (hm : m < wState10.stored.length), m < k →
          (wState10.stored.get ⟨m, hm⟩).id ≠ "x") ∧
        (handleFormSubmit wState10 "lead_9").stored =
          wState10.stored.set k ⟨"x", jsTrim wState10.form.name, jsTrim wState10.form.phone,
            jsTrim wState10.form.source, jsTrim wState10.form.status⟩ ∧
        (∀ m : Nat, m ≠ k →
          (handleFormSubmit wState10 "lead_9").stored.get? m = wState10.stored.get? m))) :=
  ⟨by decide, by decide, by decide, by decide, by decide, by decide, by decide, by decide,
    duplicate_ids wState10 "lead_9" "x" 0 1 (by decide) (by decide) (by decide) (by decide)
      (by decide) (by decide) (by decide) (by decide)⟩

end LeadApp
